import Mathlib

/-!
Shallow embedding of the derivation core of the Lulu Recipe Hub backend
(`src/main.py`, `src/schemas.py`): pantry-aware recipe matching with
substitutions (`suggest_recipes`), meal-plan auto-fill
(`auto_fill_mealplan`), shopping-list aggregation
(`generate_shopping_list`), and the pantry merge (`add_pantry_item`).

Modelling conventions:
* Python floats are modelled as rationals (`ℚ`).
* Python dicts (insertion-ordered) are modelled as association lists that
  update in place and append new keys at the end.
* A Python `set` of strings is modelled canonically: its iteration order is
  a function of its contents only, modelled as the sorted deduplicated list.
* A raised exception (`bson.errors.InvalidId` from `ObjectId(rid)`) is
  modelled as `Except.error`.
-/

namespace RecipeHub

/-- `RecipeIngredient` from `schemas.py`: `name`, optional `quantity`,
optional `unit`, `substitutions` (default empty). -/
structure RecipeIngredient where
  name : String
  quantity : Option ℚ := none
  unit : Option String := none
  substitutions : List String := []
deriving Repr, DecidableEq

/-- A stored recipe document: the fields of `Recipe` from `schemas.py`
that the core reads, together with its store-assigned `_id` (as a string). -/
structure Recipe where
  id : String
  title : String
  image : Option String := none
  ingredients : List RecipeIngredient
deriving Repr, DecidableEq

/-- `PantryItem` from `schemas.py` (fields the core reads). -/
structure PantryItem where
  name : String
  quantity : ℚ := 1
  unit : Option String := none
deriving Repr, DecidableEq

/-- Python `str.strip()`: drop whitespace from both ends.  (Defined on the
character list so that it evaluates in the kernel.) -/
def pyStrip (s : String) : String :=
  ⟨((s.data.dropWhile Char.isWhitespace).reverse.dropWhile Char.isWhitespace).reverse⟩

/-- Python `str.lower()`: lowercase each character. -/
def pyLower (s : String) : String := ⟨s.data.map Char.toLower⟩

/-- Python `s1 <= s2`: lexicographic comparison of code points. -/
def lexLe : List Char → List Char → Bool
  | [], _ => true
  | _ :: _, [] => false
  | a :: as, b :: bs => decide (a < b) || (decide (a = b) && lexLe as bs)

/-- Python string `<=` lifted to `String`. -/
def strLe (a b : String) : Bool := lexLe a.data b.data

/-- Python `s.strip().lower()`: the normalization applied to all names
before matching (`main.py` lines 185, 190-191). -/
def normalize (s : String) : String := pyLower (pyStrip s)

/-- The `have` set of `suggest_recipes` (`main.py` line 185):
normalized pantry item names.  Only membership is ever used, so the
insertion-ordered list of normalized names is an adequate model. -/
def haveNames (pantry : List PantryItem) : List String :=
  pantry.map (fun p => normalize p.name)

/-- The availability test of `suggest_recipes` (`main.py` lines 190-192):
`name in have or any(s in have for s in subs)`. -/
def ingredientAvailable (hv : List String) (ing : RecipeIngredient) : Bool :=
  hv.contains (normalize ing.name)
    || ing.substitutions.any (fun s => hv.contains (normalize s))

/-- One element of the `suggestions` list built by `suggest_recipes`. -/
structure Suggestion where
  id : String
  title : String
  image : Option String
  needed : List String
  can_make : Bool
  missing_count : Nat
deriving Repr, DecidableEq

/-- The body of the `for doc in db["recipe"].find()` loop of
`suggest_recipes` (`main.py` lines 188-203): collect the original names of
the missing ingredients in order, then build the suggestion record. -/
def mkSuggestion (hv : List String) (r : Recipe) : Suggestion :=
  let needed := (r.ingredients.filter (fun i => !ingredientAvailable hv i)).map (·.name)
  { id := r.id, title := r.title, image := r.image, needed := needed,
    can_make := needed.length == 0, missing_count := needed.length }

/-- The sort key comparison of `suggestions.sort(key=lambda x:
(x["missing_count"], x["title"]))` (`main.py` line 204): lexicographic
`≤` on the pair (missing_count, title). -/
def suggLe (a b : Suggestion) : Bool :=
  decide (a.missing_count < b.missing_count)
    || (decide (a.missing_count = b.missing_count) && strLe a.title b.title)

/-- `suggest_recipes` (`main.py` lines 182-205) as a function of the
pantry and recipe stores: one suggestion per recipe, then a stable sort
ascending by `(missing_count, title)`. -/
def suggest_recipes (pantry : List PantryItem) (recipes : List Recipe) :
    List Suggestion :=
  (recipes.map (mkSuggestion (haveNames pantry))).mergeSort suggLe

/-! ### Meal-plan auto-fill (`auto_fill_mealplan`, `main.py` lines 235-258) -/

/-- The fixed day order of `auto_fill_mealplan` (`main.py` line 242). -/
def daysList : List String := ["Mon", "Tue", "Wed", "Thu", "Fri", "Sat", "Sun"]

/-- The fixed slot order of `auto_fill_mealplan` (`main.py` line 243). -/
def slotsList : List String := ["breakfast", "lunch", "dinner"]

/-- The `days` mapping of a meal plan: day name to slot-name/recipe-id
pairs, insertion-ordered as the Python dicts are. -/
abbrev Days := List (String × List (String × Option String))

/-- `plan = {d: {s: None for s in slots} for d in days}` (`main.py` line 244). -/
def emptyDays : Days :=
  daysList.map (fun d => (d, slotsList.map (fun s => (s, (none : Option String)))))

/-- The filling loop of `auto_fill_mealplan` (`main.py` lines 245-251):
visit days then slots in order, assigning `order[idx % len(order)]` and
incrementing `idx`.  The running pair carries `idx` and the plan so far. -/
def fillDays (order : List String) : Days :=
  (daysList.foldl
    (fun acc d =>
      let inner := slotsList.foldl
        (fun (acc2 : Nat × List (String × Option String)) s =>
          (acc2.1 + 1, acc2.2 ++ [(s, some (order.getD (acc2.1 % order.length) ""))]))
        (acc.1, [])
      (inner.1, acc.2 ++ [(d, inner.2)]))
    ((0 : Nat), ([] : Days))).2

/-- `order = can + others` (`main.py` lines 238-241): ids of makeable
suggestions first, then the rest, each in ranked order. -/
def suggestOrder (pantry : List PantryItem) (recipes : List Recipe) : List String :=
  let sug := suggest_recipes pantry recipes
  ((sug.filter (fun s => s.can_make)).map (·.id))
    ++ ((sug.filter (fun s => !s.can_make)).map (·.id))

/-- A stored meal-plan document (the fields `auto_fill_mealplan` and
`generate_shopping_list` read). -/
structure MealPlanDoc where
  week_start : String
  days : Days
deriving Repr, DecidableEq

/-- `update_one({"_id": existing["_id"]}, {"$set": data})`: replace the
`week_start` and `days` fields of the first document matching `ws`. -/
def updateFirst (store : List MealPlanDoc) (ws : String) (d : Days) :
    List MealPlanDoc :=
  match store with
  | [] => []
  | doc :: rest =>
    if doc.week_start = ws then { week_start := ws, days := d } :: rest
    else doc :: updateFirst rest ws d

/-- `auto_fill_mealplan` (`main.py` lines 235-258) acting on the meal-plan
store: returns the new store contents and the computed `days`.  When
`order` is empty the code returns early (line 246-247) without touching
the store. -/
def auto_fill_mealplan (store : List MealPlanDoc) (ws : String)
    (pantry : List PantryItem) (recipes : List Recipe) :
    List MealPlanDoc × Days :=
  let order := suggestOrder pantry recipes
  if order.isEmpty then (store, emptyDays)
  else
    let filled := fillDays order
    let store' :=
      if (store.find? (fun doc => doc.week_start = ws)).isSome then
        updateFirst store ws filled
      else store ++ [{ week_start := ws, days := filled }]
    (store', filled)

/-- The recipe id in slot `k` (`k = 0..20`) of a plan, visiting days
Mon..Sun and slots breakfast,lunch,dinner within each day. -/
def planSlot (d : Days) (k : Nat) : Option String :=
  ((d.getD (k / 3) ("", [])).2.getD (k % 3) ("", none)).2

/-! ### Shopping list (`generate_shopping_list`, `main.py` lines 261-296) -/

/-- `f"{name}|{unit}"`: Python renders a `None` unit as the text `None`. -/
def keyOf (name : String) (unit : Option String) : String :=
  name ++ "|" ++ (match unit with | some u => u | none => "None")

/-- `ing.get("quantity") or 1`: `None` and `0` are falsy, so both yield 1. -/
def qtyOrOne : Option ℚ → ℚ
  | none => 1
  | some v => if v = 0 then 1 else v

/-- One value of the `ingredients_needed` dict. -/
structure NeedEntry where
  name : String
  unit : Option String
  quantity : ℚ
deriving Repr, DecidableEq

/-- Update the `ingredients_needed` dict at `key` (`main.py` lines
281-284): insert `{name, unit, quantity: 0}` if the key is absent, then
add `qty` to the stored quantity.  Insertion order is preserved. -/
def bumpNeeded (m : List (String × NeedEntry)) (key : String) (name : String)
    (unit : Option String) (qty : ℚ) : List (String × NeedEntry) :=
  match m with
  | [] => [(key, ⟨name, unit, qty⟩)]
  | (k, e) :: rest =>
    if k = key then (k, ⟨e.name, e.unit, e.quantity + qty⟩) :: rest
    else (k, e) :: bumpNeeded rest key name unit qty

/-- The body of the `for ing in r.get("ingredients", [])` loop
(`main.py` lines 277-284). -/
def addIngredient (m : List (String × NeedEntry)) (ing : RecipeIngredient) :
    List (String × NeedEntry) :=
  bumpNeeded m (keyOf ing.name ing.unit) ing.name ing.unit (qtyOrOne ing.quantity)

/-- `bson.ObjectId` accepts a 24-character hexadecimal string; anything
else raises `InvalidId`. -/
def validObjectId (s : String) : Bool :=
  s.data.length == 24 &&
    s.data.all (fun c => c.isDigit || ('a' ≤ c && c ≤ 'f') || ('A' ≤ c && c ≤ 'F'))

/-- The slot values referenced by a plan, in visiting order, with falsy
values (`None`, `""`) dropped (`main.py` lines 267-271, `if rid:`). -/
def slotIds (days : Days) : List String :=
  (days.flatMap (fun d => d.2.filterMap (fun s => s.2))).filter (fun r => r ≠ "")

/-- The Python `set` of distinct referenced recipe ids.  A `set`'s
iteration order is a function of its contents, not of insertion order;
it is modelled canonically as the sorted deduplicated list. -/
def collectIds (days : Days) : List String :=
  (slotIds days).dedup.mergeSort strLe

/-- One iteration of the `for rid in recipe_ids` loop (`main.py` lines
273-284): `ObjectId(rid)` raises on an invalid id (modelled as
`Except.error`), a dangling id is skipped (`if not r: continue`), and a
found recipe's ingredients are folded into the dict. -/
def needStep (store : List Recipe) (m : List (String × NeedEntry))
    (rid : String) : Except String (List (String × NeedEntry)) :=
  if validObjectId rid then
    match store.find? (fun r => r.id = rid) with
    | none => .ok m
    | some r => .ok (r.ingredients.foldl addIngredient m)
  else .error "InvalidId"

/-- The `for rid in recipe_ids` loop (`main.py` lines 273-284). -/
def buildNeeded (store : List Recipe) (ids : List String) :
    Except String (List (String × NeedEntry)) :=
  ids.foldlM (needStep store) []

/-- `have[key] = have.get(key, 0) + float(p.get("quantity", 0))` update. -/
def bumpHave (m : List (String × ℚ)) (key : String) (q : ℚ) :
    List (String × ℚ) :=
  match m with
  | [] => [(key, q)]
  | (k, v) :: rest =>
    if k = key then (k, v + q) :: rest
    else (k, v) :: bumpHave rest key q

/-- The pantry aggregation dict `have` (`main.py` lines 285-289). -/
def buildHave (pantry : List PantryItem) : List (String × ℚ) :=
  pantry.foldl (fun m p => bumpHave m (keyOf p.name p.unit) p.quantity) []

/-- `have.get(key, 0)`. -/
def haveAmount (m : List (String × ℚ)) (key : String) : ℚ :=
  match m.find? (fun kv => kv.1 = key) with
  | some kv => kv.2
  | none => 0

/-- A produced shopping-list item. -/
structure ShoppingItem where
  name : String
  unit : Option String
  quantity : ℚ
  purchased : Bool
deriving Repr, DecidableEq

/-- Floor of a rational, written so that it evaluates in the kernel
(`Int` division rounds toward minus infinity for a positive divisor). -/
def ratFloor (x : ℚ) : ℤ := x.num / (x.den : ℤ)

/-- Python `round(x)` for the final integer step: round half to even. -/
def roundHalfEven (x : ℚ) : ℤ :=
  let f := ratFloor x
  let r := x - (f : ℚ)
  if r < 1/2 then f
  else if r > 1/2 then f + 1
  else if f % 2 = 0 then f else f + 1

/-- Python `round(x, 2)`: round to two decimal places, half to even. -/
def pyRound2 (x : ℚ) : ℚ := (roundHalfEven (x * 100) : ℚ) / 100

/-- The float-noise tolerance of `main.py` line 293. -/
def epsilon : ℚ := 1/10000

/-- The emission loop (`main.py` lines 290-294): emit an item whenever
the needed quantity minus the pantry quantity exceeds `epsilon`. -/
def emitItems (needed : List (String × NeedEntry)) (hv : List (String × ℚ)) :
    List ShoppingItem :=
  needed.foldl
    (fun acc kv =>
      let missing := kv.2.quantity - haveAmount hv kv.1
      if missing > epsilon then
        acc ++ [⟨kv.2.name, kv.2.unit, pyRound2 missing, false⟩]
      else acc)
    []

/-- The sort comparison of `result.sort(key=lambda x: x["name"])`. -/
def itemLe (a b : ShoppingItem) : Bool := strLe a.name b.name

/-- `generate_shopping_list` (`main.py` lines 261-296) as a function of
the plan looked up for the week (`None` when absent), the recipe store
and the pantry.  A raised `InvalidId` is an `Except.error`. -/
def generate_shopping_list (planOpt : Option MealPlanDoc)
    (store : List Recipe) (pantry : List PantryItem) :
    Except String (List ShoppingItem) :=
  match planOpt with
  | none => .ok []
  | some plan =>
    match buildNeeded store (collectIds plan.days) with
    | .error e => .error e
    | .ok needed => .ok ((emitItems needed (buildHave pantry)).mergeSort itemLe)

/-- The quantity stored in the `ingredients_needed` dict at `key`, with
the 0 default used before any addition. -/
def amountOf (m : List (String × NeedEntry)) (key : String) : ℚ :=
  match m.find? (fun kv => kv.1 = key) with
  | some kv => kv.2.quantity
  | none => 0

/-- The emission decision of `main.py` lines 291-294 for one needed key:
an item with the deficit rounded at output, or nothing. -/
def emitEntry (hv : List (String × ℚ)) (kv : String × NeedEntry) :
    Option ShoppingItem :=
  let missing := kv.2.quantity - haveAmount hv kv.1
  if missing > epsilon then some ⟨kv.2.name, kv.2.unit, pyRound2 missing, false⟩
  else none

/-- The stream of ingredients the id list contributes, in order: a
dangling id (no recipe found) contributes nothing. -/
def foundIngredients (store : List Recipe) (ids : List String) :
    List RecipeIngredient :=
  ids.flatMap (fun rid =>
    match store.find? (fun r => r.id = rid) with
    | none => []
    | some r => r.ingredients)

/-- The `ingredients_needed` dict contents on the non-raising path. -/
def neededEntries (store : List Recipe) (ids : List String) :
    List (String × NeedEntry) :=
  (foundIngredients store ids).foldl addIngredient []

/-! ### Pantry add (`add_pantry_item`, `main.py` lines 150-158) -/

/-- `$inc` of `quantity` on the first document matching the item's
`(name, unit)`. -/
def incFirst : List PantryItem → PantryItem → List PantryItem
  | [], _ => []
  | p :: rest, item =>
    if p.name = item.name ∧ p.unit = item.unit then
      { p with quantity := p.quantity + item.quantity } :: rest
    else p :: incFirst rest item

/-- `add_pantry_item` (`main.py` lines 150-158): merge into an existing
row with the same `(name, unit)`, otherwise insert a new row. -/
def add_pantry_item (store : List PantryItem) (item : PantryItem) :
    List PantryItem :=
  match store.find? (fun p => decide (p.name = item.name) && decide (p.unit = item.unit)) with
  | some _ => incFirst store item
  | none => store ++ [item]

/-
`List.mergeSort` and the Batteries rational arithmetic are sealed for
reduction; unseal them so that concrete instances evaluate with `decide`.
-/
unseal Rat.add Rat.sub Rat.mul Rat.inv List.merge List.mergeSort

/-! ### Order lemmas for the comparators -/

theorem lexLe_total (a b : List Char) : (lexLe a b || lexLe b a) = true := by
  induction a generalizing b with
  | nil => simp [lexLe]
  | cons x xs ih =>
    cases b with
    | nil => simp [lexLe]
    | cons y ys =>
      rcases lt_trichotomy x y with h | h | h
      · simp [lexLe, h]
      · subst h
        have := ih ys
        rcases Bool.or_eq_true _ _ |>.mp this with h2 | h2 <;> simp [lexLe, h2]
      · simp [lexLe, h]

theorem lexLe_trans (a b c : List Char) (hab : lexLe a b = true)
    (hbc : lexLe b c = true) : lexLe a c = true := by
  induction a generalizing b c with
  | nil => simp [lexLe]
  | cons x xs ih =>
    cases b with
    | nil => simp [lexLe] at hab
    | cons y ys =>
      cases c with
      | nil => simp [lexLe] at hbc
      | cons z zs =>
        simp only [lexLe, Bool.or_eq_true, Bool.and_eq_true, decide_eq_true_eq] at hab hbc ⊢
        rcases hab with h1 | ⟨h1, h1'⟩ <;> rcases hbc with h2 | ⟨h2, h2'⟩
        · exact Or.inl (lt_trans h1 h2)
        · exact Or.inl (h2 ▸ h1)
        · exact Or.inl (h1 ▸ h2)
        · exact Or.inr ⟨h1.trans h2, ih ys zs h1' h2'⟩

theorem lexLe_antisymm (a b : List Char) (hab : lexLe a b = true)
    (hba : lexLe b a = true) : a = b := by
  induction a generalizing b with
  | nil =>
    cases b with
    | nil => rfl
    | cons y ys => simp [lexLe] at hba
  | cons x xs ih =>
    cases b with
    | nil => simp [lexLe] at hab
    | cons y ys =>
      simp only [lexLe, Bool.or_eq_true, Bool.and_eq_true, decide_eq_true_eq] at hab hba
      rcases hab with h1 | ⟨h1, h1'⟩
      · rcases hba with h2 | ⟨h2, _⟩
        · exact absurd (lt_trans h1 h2) (lt_irrefl x)
        · exact absurd h1 (h2 ▸ lt_irrefl y)
      · rcases hba with h2 | ⟨h2, h2'⟩
        · exact absurd h2 (h1 ▸ lt_irrefl y)
        · exact h1 ▸ congrArg (x :: ·) (ih ys h1' h2')

theorem strLe_total (a b : String) : (strLe a b || strLe b a) = true :=
  lexLe_total a.data b.data

theorem strLe_trans (a b c : String) (hab : strLe a b = true)
    (hbc : strLe b c = true) : strLe a c = true :=
  lexLe_trans a.data b.data c.data hab hbc

theorem strLe_antisymm (a b : String) (hab : strLe a b = true)
    (hba : strLe b a = true) : a = b := by
  cases a; cases b
  exact congrArg String.mk (lexLe_antisymm _ _ hab hba)

theorem suggLe_total (a b : Suggestion) : (suggLe a b || suggLe b a) = true := by
  simp only [suggLe, Bool.or_eq_true, Bool.and_eq_true, decide_eq_true_eq]
  rcases lt_trichotomy a.missing_count b.missing_count with h | h | h
  · exact Or.inl (Or.inl h)
  · rcases Bool.or_eq_true _ _ |>.mp (strLe_total a.title b.title) with h2 | h2
    · exact Or.inl (Or.inr ⟨h, h2⟩)
    · exact Or.inr (Or.inr ⟨h.symm, h2⟩)
  · exact Or.inr (Or.inl h)

theorem suggLe_trans (a b c : Suggestion) (hab : suggLe a b = true)
    (hbc : suggLe b c = true) : suggLe a c = true := by
  simp only [suggLe, Bool.or_eq_true, Bool.and_eq_true, decide_eq_true_eq] at hab hbc ⊢
  rcases hab with h1 | ⟨h1, h1'⟩ <;> rcases hbc with h2 | ⟨h2, h2'⟩
  · exact Or.inl (lt_trans h1 h2)
  · exact Or.inl (h2 ▸ h1)
  · exact Or.inl (h1 ▸ h2)
  · exact Or.inr ⟨h1.trans h2, strLe_trans _ _ _ h1' h2'⟩

/-! ### Auto-fill lemmas -/

theorem suggest_recipes_length (pantry : List PantryItem) (recipes : List Recipe) :
    (suggest_recipes pantry recipes).length = recipes.length := by
  rw [suggest_recipes, (List.mergeSort_perm _ suggLe).length_eq, List.length_map]

theorem suggestOrder_length (pantry : List PantryItem) (recipes : List Recipe) :
    (suggestOrder pantry recipes).length = recipes.length := by
  unfold suggestOrder
  simp only [List.length_append, List.length_map]
  have h := (List.filter_append_perm (fun s => s.can_make)
    (suggest_recipes pantry recipes)).length_eq
  simp only [List.length_append] at h
  rw [h, suggest_recipes_length]

theorem planSlot_fillDays (order : List String) (hpos : 0 < order.length)
    (k : Nat) (hk : k < 21) :
    planSlot (fillDays order) k = order[k % order.length]? := by
  have h : ∀ i : Nat, i % order.length < order.length := fun i => Nat.mod_lt _ hpos
  interval_cases k <;>
    simp [fillDays, planSlot, daysList, slotsList, List.getD_eq_getElem?_getD,
      List.getElem?_eq_getElem (h _)]

/-! ### Shopping-list lemmas -/

theorem amountOf_nil (key : String) : amountOf [] key = 0 := rfl

theorem amountOf_cons_self (k : String) (e : NeedEntry)
    (rest : List (String × NeedEntry)) :
    amountOf ((k, e) :: rest) k = e.quantity := by
  simp [amountOf, List.find?_cons_of_pos]

theorem amountOf_cons_ne (k : String) (e : NeedEntry)
    (rest : List (String × NeedEntry)) (key : String) (h : k ≠ key) :
    amountOf ((k, e) :: rest) key = amountOf rest key := by
  simp only [amountOf]
  rw [List.find?_cons_of_neg]
  simp [h]

theorem amountOf_bumpNeeded_self (m : List (String × NeedEntry)) (key name : String)
    (unit : Option String) (q : ℚ) :
    amountOf (bumpNeeded m key name unit q) key = amountOf m key + q := by
  induction m with
  | nil => simp [bumpNeeded, amountOf_nil, amountOf_cons_self]
  | cons kv rest ih =>
    obtain ⟨k, e⟩ := kv
    by_cases h : k = key
    · subst h
      simp [bumpNeeded, amountOf_cons_self]
    · simp only [bumpNeeded, if_neg h]
      rw [amountOf_cons_ne _ _ _ _ h, amountOf_cons_ne _ _ _ _ h, ih]

theorem amountOf_bumpNeeded_ne (m : List (String × NeedEntry)) (key name : String)
    (unit : Option String) (q : ℚ) (key' : String) (h : key ≠ key') :
    amountOf (bumpNeeded m key name unit q) key' = amountOf m key' := by
  induction m with
  | nil => simp [bumpNeeded, amountOf_nil, amountOf_cons_ne _ _ _ _ h]
  | cons kv rest ih =>
    obtain ⟨k, e⟩ := kv
    by_cases hk : k = key
    · subst hk
      have hb : bumpNeeded ((k, e) :: rest) k name unit q
          = (k, ⟨e.name, e.unit, e.quantity + q⟩) :: rest := by
        simp [bumpNeeded]
      rw [hb, amountOf_cons_ne _ _ _ _ h, amountOf_cons_ne _ _ _ _ h]
    · simp only [bumpNeeded, if_neg hk]
      by_cases hk' : k = key'
      · subst hk'
        rw [amountOf_cons_self, amountOf_cons_self]
      · rw [amountOf_cons_ne _ _ _ _ hk', amountOf_cons_ne _ _ _ _ hk', ih]

theorem amountOf_addIngredient (m : List (String × NeedEntry))
    (i : RecipeIngredient) (key : String) :
    amountOf (addIngredient m i) key
      = amountOf m key
        + (if keyOf i.name i.unit = key then qtyOrOne i.quantity else 0) := by
  by_cases h : keyOf i.name i.unit = key
  · rw [if_pos h, addIngredient, h, amountOf_bumpNeeded_self]
  · rw [if_neg h, addIngredient, amountOf_bumpNeeded_ne _ _ _ _ _ _ h, add_zero]

theorem amountOf_foldl (ings : List RecipeIngredient)
    (m : List (String × NeedEntry)) (key : String) :
    amountOf (ings.foldl addIngredient m) key
      = amountOf m key
        + ((ings.filter (fun i => keyOf i.name i.unit = key)).map
            (fun i => qtyOrOne i.quantity)).sum := by
  induction ings generalizing m with
  | nil => simp
  | cons i rest ih =>
    rw [List.foldl_cons, ih, amountOf_addIngredient]
    by_cases h : keyOf i.name i.unit = key
    · simp [List.filter_cons, h, add_assoc]
    · simp [List.filter_cons, h]

theorem haveAmount_nil (key : String) : haveAmount [] key = 0 := rfl

theorem haveAmount_cons_self (k : String) (v : ℚ) (rest : List (String × ℚ)) :
    haveAmount ((k, v) :: rest) k = v := by
  simp [haveAmount, List.find?_cons_of_pos]

theorem haveAmount_cons_ne (k : String) (v : ℚ) (rest : List (String × ℚ))
    (key : String) (h : k ≠ key) :
    haveAmount ((k, v) :: rest) key = haveAmount rest key := by
  simp only [haveAmount]
  rw [List.find?_cons_of_neg]
  simp [h]

theorem haveAmount_bumpHave_self (m : List (String × ℚ)) (key : String) (q : ℚ) :
    haveAmount (bumpHave m key q) key = haveAmount m key + q := by
  induction m with
  | nil => simp [bumpHave, haveAmount_nil, haveAmount_cons_self]
  | cons kv rest ih =>
    obtain ⟨k, v⟩ := kv
    by_cases h : k = key
    · subst h
      simp [bumpHave, haveAmount_cons_self]
    · simp only [bumpHave, if_neg h]
      rw [haveAmount_cons_ne _ _ _ _ h, haveAmount_cons_ne _ _ _ _ h, ih]

theorem haveAmount_bumpHave_ne (m : List (String × ℚ)) (key : String) (q : ℚ)
    (key' : String) (h : key ≠ key') :
    haveAmount (bumpHave m key q) key' = haveAmount m key' := by
  induction m with
  | nil => simp [bumpHave, haveAmount_nil, haveAmount_cons_ne _ _ _ _ h]
  | cons kv rest ih =>
    obtain ⟨k, v⟩ := kv
    by_cases hk : k = key
    · subst hk
      have hb : bumpHave ((k, v) :: rest) k q = (k, v + q) :: rest := by
        simp [bumpHave]
      rw [hb, haveAmount_cons_ne _ _ _ _ h, haveAmount_cons_ne _ _ _ _ h]
    · simp only [bumpHave, if_neg hk]
      by_cases hk' : k = key'
      · subst hk'
        rw [haveAmount_cons_self, haveAmount_cons_self]
      · rw [haveAmount_cons_ne _ _ _ _ hk', haveAmount_cons_ne _ _ _ _ hk', ih]

theorem haveAmount_buildHave (pantry : List PantryItem) (key : String) :
    haveAmount (buildHave pantry) key
      = ((pantry.filter (fun p => keyOf p.name p.unit = key)).map
          (fun p => p.quantity)).sum := by
  suffices h : ∀ (m : List (String × ℚ)),
      haveAmount (pantry.foldl (fun m p => bumpHave m (keyOf p.name p.unit) p.quantity) m) key
        = haveAmount m key
          + ((pantry.filter (fun p => keyOf p.name p.unit = key)).map
              (fun p => p.quantity)).sum by
    have := h []
    rw [buildHave, this, haveAmount_nil, zero_add]
  induction pantry with
  | nil => simp
  | cons p rest ih =>
    intro m
    rw [List.foldl_cons, ih]
    by_cases h : keyOf p.name p.unit = key
    · rw [h, haveAmount_bumpHave_self]
      simp [List.filter_cons, h, add_assoc]
    · rw [haveAmount_bumpHave_ne _ _ _ _ h]
      simp [List.filter_cons, h]

theorem emitItems_eq (needed : List (String × NeedEntry)) (hv : List (String × ℚ)) :
    emitItems needed hv = needed.filterMap (emitEntry hv) := by
  suffices h : ∀ acc : List ShoppingItem,
      needed.foldl
        (fun acc kv =>
          let missing := kv.2.quantity - haveAmount hv kv.1
          if missing > epsilon then
            acc ++ [⟨kv.2.name, kv.2.unit, pyRound2 missing, false⟩]
          else acc) acc
        = acc ++ needed.filterMap (emitEntry hv) by
    simpa [emitItems] using h []
  induction needed with
  | nil => simp
  | cons kv rest ih =>
    intro acc
    rw [List.foldl_cons, ih]
    by_cases h : kv.2.quantity - haveAmount hv kv.1 > epsilon
    · simp [emitEntry, h]
    · simp [emitEntry, h]

theorem foldlM_needStep_ok (store : List Recipe) (ids : List String)
    (m needed : List (String × NeedEntry))
    (h : ids.foldlM (needStep store) m = .ok needed) :
    needed = (foundIngredients store ids).foldl addIngredient m
      ∧ ∀ rid ∈ ids, validObjectId rid = true := by
  induction ids generalizing m with
  | nil =>
    simp only [List.foldlM_nil] at h
    cases h
    simp [foundIngredients]
  | cons rid rest ih =>
    rw [List.foldlM_cons] at h
    by_cases hv : validObjectId rid = true
    · rcases hr : store.find? (fun r => r.id = rid) with _ | r
      · have hstep : needStep store m rid = .ok m := by
          simp [needStep, hv, hr]
        rw [hstep] at h
        obtain ⟨h1, h2⟩ := ih _ h
        refine ⟨?_, ?_⟩
        · rw [h1]
          simp [foundIngredients, hr]
        · intro x hx
          rcases List.mem_cons.mp hx with rfl | hx
          · exact hv
          · exact h2 x hx
      · have hstep : needStep store m rid = .ok (r.ingredients.foldl addIngredient m) := by
          simp [needStep, hv, hr]
        rw [hstep] at h
        obtain ⟨h1, h2⟩ := ih _ h
        refine ⟨?_, ?_⟩
        · rw [h1]
          simp [foundIngredients, hr, List.foldl_append]
        · intro x hx
          rcases List.mem_cons.mp hx with rfl | hx
          · exact hv
          · exact h2 x hx
    · have hstep : needStep store m rid = .error "InvalidId" := by
        simp [needStep, hv]
      rw [hstep] at h
      have h2 : (Except.error "InvalidId" : Except String (List (String × NeedEntry)))
          = Except.ok needed := h
      cases h2

theorem buildNeeded_eq_ok (store : List Recipe) (ids : List String)
    (h : ∀ rid ∈ ids, validObjectId rid = true) :
    buildNeeded store ids = .ok (neededEntries store ids) := by
  rw [buildNeeded, neededEntries]
  suffices haux : ∀ m : List (String × NeedEntry),
      ids.foldlM (needStep store) m
        = .ok ((foundIngredients store ids).foldl addIngredient m) by
    exact haux []
  induction ids with
  | nil =>
    intro m
    rfl
  | cons rid rest ih =>
    intro m
    have hv : validObjectId rid = true := h rid (List.mem_cons_self rid rest)
    have hrest : ∀ x ∈ rest, validObjectId x = true := fun x hx =>
      h x (List.mem_cons_of_mem _ hx)
    rw [List.foldlM_cons]
    rcases hr : store.find? (fun r => r.id = rid) with _ | r
    · have hstep : needStep store m rid = .ok m := by
        simp [needStep, hv, hr]
      rw [hstep]
      have hfi : foundIngredients store (rid :: rest)
          = foundIngredients store rest := by
        simp [foundIngredients, hr]
      rw [hfi]
      exact ih hrest m
    · have hstep : needStep store m rid
          = .ok (r.ingredients.foldl addIngredient m) := by
        simp [needStep, hv, hr]
      rw [hstep]
      have hfi : foundIngredients store (rid :: rest)
          = r.ingredients ++ foundIngredients store rest := by
        simp [foundIngredients, hr]
      rw [hfi, List.foldl_append]
      exact ih hrest (r.ingredients.foldl addIngredient m)

theorem foundIngredients_filter_found (store : List Recipe) (ids : List String) :
    foundIngredients store
        (ids.filter (fun rid => (store.find? (fun r => r.id = rid)).isSome))
      = foundIngredients store ids := by
  induction ids with
  | nil => rfl
  | cons rid rest ih =>
    rcases hr : store.find? (fun r => r.id = rid) with _ | r
    · simp [List.filter_cons, hr, foundIngredients] at ih ⊢
      exact ih
    · simp [List.filter_cons, hr, foundIngredients] at ih ⊢
      exact ih

theorem itemLe_total (a b : ShoppingItem) : (itemLe a b || itemLe b a) = true :=
  strLe_total a.name b.name

theorem itemLe_trans (a b c : ShoppingItem) (hab : itemLe a b = true)
    (hbc : itemLe b c = true) : itemLe a c = true :=
  strLe_trans _ _ _ hab hbc

theorem bumpNeeded_keys (m : List (String × NeedEntry)) (key name : String)
    (unit : Option String) (q : ℚ) :
    (bumpNeeded m key name unit q).map Prod.fst
      = if key ∈ m.map Prod.fst then m.map Prod.fst
        else m.map Prod.fst ++ [key] := by
  induction m with
  | nil => simp [bumpNeeded]
  | cons kv rest ih =>
    obtain ⟨k, e⟩ := kv
    by_cases h : k = key
    · subst h
      simp [bumpNeeded]
    · simp only [bumpNeeded, if_neg h, List.map_cons]
      rw [ih]
      by_cases hm : key ∈ rest.map Prod.fst
      · simp [hm, List.mem_cons]
      · simp [hm, List.mem_cons, Ne.symm h]

theorem bumpNeeded_nodup_keys (m : List (String × NeedEntry)) (key name : String)
    (unit : Option String) (q : ℚ) (h : (m.map Prod.fst).Nodup) :
    ((bumpNeeded m key name unit q).map Prod.fst).Nodup := by
  rw [bumpNeeded_keys]
  by_cases hm : key ∈ m.map Prod.fst
  · simpa [hm] using h
  · simp [hm, List.nodup_append, h]

theorem foldl_addIngredient_nodup_keys (ings : List RecipeIngredient)
    (m : List (String × NeedEntry)) (h : (m.map Prod.fst).Nodup) :
    (((ings.foldl addIngredient m)).map Prod.fst).Nodup := by
  induction ings generalizing m with
  | nil => exact h
  | cons i rest ih =>
    rw [List.foldl_cons]
    exact ih _ (bumpNeeded_nodup_keys _ _ _ _ _ h)

theorem find?_eq_of_mem_nodup_keys (m : List (String × NeedEntry))
    (kv : String × NeedEntry) (hmem : kv ∈ m) (hnd : (m.map Prod.fst).Nodup) :
    m.find? (fun x => x.1 = kv.1) = some kv := by
  induction m with
  | nil => cases hmem
  | cons a rest ih =>
    rcases List.mem_cons.mp hmem with rfl | hmem2
    · exact List.find?_cons_of_pos _ (by simp)
    · have hne : a.1 ≠ kv.1 := by
        intro he
        have hks : kv.1 ∈ rest.map Prod.fst := List.mem_map_of_mem _ hmem2
        exact (List.nodup_cons.mp (by simpa using hnd)).1 (he ▸ hks)
      rw [List.find?_cons_of_neg _ (by simp [hne])]
      exact ih hmem2 (List.nodup_cons.mp (by simpa using hnd)).2

theorem mem_neededEntries_quantity (store : List Recipe) (ids : List String)
    (kv : String × NeedEntry) (h : kv ∈ neededEntries store ids) :
    kv.2.quantity
      = (((foundIngredients store ids).filter
            (fun i => keyOf i.name i.unit = kv.1)).map
          (fun i => qtyOrOne i.quantity)).sum := by
  have hnd : ((neededEntries store ids).map Prod.fst).Nodup :=
    foldl_addIngredient_nodup_keys _ [] (by simp)
  have hfind : (neededEntries store ids).find? (fun x => x.1 = kv.1) = some kv :=
    find?_eq_of_mem_nodup_keys _ _ h hnd
  have hamt : amountOf (neededEntries store ids) kv.1 = kv.2.quantity := by
    rw [amountOf, hfind]
  rw [← hamt, neededEntries, amountOf_foldl, amountOf_nil, zero_add]

theorem find?_updateFirst (store : List MealPlanDoc) (ws : String) (d : Days)
    (h : (store.find? (fun doc => doc.week_start = ws)).isSome = true) :
    (updateFirst store ws d).find? (fun doc => doc.week_start = ws)
      = some ⟨ws, d⟩ := by
  induction store with
  | nil => simp at h
  | cons doc rest ih =>
    by_cases hd : doc.week_start = ws
    · rw [updateFirst, if_pos hd]
      exact List.find?_cons_of_pos _ (by simp)
    · rw [updateFirst, if_neg hd]
      rw [List.find?_cons_of_neg _ (by simp [hd])]
      rw [List.find?_cons_of_neg _ (by simp [hd])] at h
      exact ih h

/-! ### Claim theorems -/

/-- C1: for every pantry set and ingredient, the matcher reports the
ingredient as not missing iff the trimmed, lowercased ingredient name is
among the trimmed, lowercased pantry names, or some element of the
ingredient's own substitution list, trimmed and lowercased, is among
them; pantry quantities and units are ignored entirely. -/
theorem matcher_not_missing_iff (pantry : List PantryItem) (ing : RecipeIngredient) :
    (ingredientAvailable (haveNames pantry) ing = true ↔
      (normalize ing.name ∈ pantry.map (fun p => normalize p.name) ∨
        ∃ s ∈ ing.substitutions,
          normalize s ∈ pantry.map (fun p => normalize p.name)))
    ∧ ∀ (q : PantryItem → ℚ) (u : PantryItem → Option String),
        ingredientAvailable
            (haveNames (pantry.map (fun p => ⟨p.name, q p, u p⟩))) ing
          = ingredientAvailable (haveNames pantry) ing := by
  constructor
  · simp [ingredientAvailable, haveNames, List.any_eq_true]
  · intro q u
    simp [ingredientAvailable, haveNames, Function.comp_def]

/-- Witness for `matcher_not_missing_iff`: changing the pantry's
quantities and units does not change availability. -/
theorem matcher_not_missing_iff_witness :
    ingredientAvailable
        (haveNames (([⟨"Apple", 1, some "pc"⟩] : List PantryItem).map
          (fun p => ⟨p.name, 5, none⟩)))
        ⟨"Apple", none, none, []⟩
      = ingredientAvailable (haveNames [⟨"Apple", 1, some "pc"⟩])
        ⟨"Apple", none, none, []⟩ := by
  have h := (matcher_not_missing_iff [⟨"Apple", 1, some "pc"⟩]
      ⟨"Apple", none, none, []⟩).2 (fun _ => 5) (fun _ => none)
  exact h

/-- C8: the claim says an ingredient whose name normalizes to the empty
string is always treated as missing; the code has no such guard, so with
a pantry item whose name normalizes to `""` the ingredient is counted as
available and its recipe is reported as makeable. -/
theorem empty_name_counted_available :
    ingredientAvailable (haveNames [⟨" ", 1, none⟩]) ⟨"", none, none, []⟩ = true ∧
    suggest_recipes [⟨" ", 1, none⟩] [⟨"r1", "T", none, [⟨"", none, none, []⟩]⟩]
      = [⟨"r1", "T", none, [], true, 0⟩] := by
  exact ⟨by decide, by decide⟩

/-- C2: `suggest_recipes` emits exactly one suggestion per recipe; its
`needed` list holds the original names of the missing ingredients in
recipe ingredient order; `missing_count` is that list's length;
`can_make` holds exactly when `missing_count` is zero; and the output is
sorted ascending by the key `(missing_count, title)`. -/
theorem suggest_recipes_spec (pantry : List PantryItem) (recipes : List Recipe) :
    (suggest_recipes pantry recipes).Perm
        (recipes.map (mkSuggestion (haveNames pantry)))
    ∧ (∀ r : Recipe,
        (mkSuggestion (haveNames pantry) r).needed
          = (r.ingredients.filter
              (fun i => !ingredientAvailable (haveNames pantry) i)).map (fun i => i.name))
    ∧ (∀ s, s ∈ suggest_recipes pantry recipes →
        s.missing_count = s.needed.length ∧ (s.can_make = true ↔ s.missing_count = 0))
    ∧ (suggest_recipes pantry recipes).Pairwise
        (fun a b => a.missing_count < b.missing_count
          ∨ (a.missing_count = b.missing_count ∧ strLe a.title b.title = true)) := by
  refine ⟨List.mergeSort_perm _ suggLe, fun r => rfl, ?_, ?_⟩
  · intro s hs
    rw [suggest_recipes, (List.mergeSort_perm _ suggLe).mem_iff] at hs
    obtain ⟨r, _, rfl⟩ := List.mem_map.mp hs
    refine ⟨rfl, ?_⟩
    simp [mkSuggestion]
  · have h := @List.sorted_mergeSort _ suggLe suggLe_trans suggLe_total
      (recipes.map (mkSuggestion (haveNames pantry)))
    exact h.imp (fun hab => by
      simpa [suggLe, Bool.or_eq_true, Bool.and_eq_true, decide_eq_true_eq] using hab)

/-- Witness for the hypothesis of `suggest_recipes_spec`: the ranked
suggestion for the recipe needing only a pantry-stocked apple. -/
theorem suggest_recipes_spec_witness :
    (0 : Nat) = ([] : List String).length ∧ ((true : Bool) = true ↔ (0 : Nat) = 0) := by
  have h := (suggest_recipes_spec [⟨"Apple", 2, some "pc"⟩]
      [⟨"r1", "B", none, [⟨"Apple", some 1, some "pc", []⟩, ⟨"Banana", some 1, some "pc", []⟩]⟩,
       ⟨"r2", "A", none, [⟨"Apple", some 1, some "pc", []⟩]⟩]).2.2.1
    ⟨"r2", "A", none, [], true, 0⟩ (by decide)
  exact h

/-- C3: with at least one recipe, auto-fill assigns to the k-th slot
(days Mon..Sun, slots breakfast,lunch,dinner within each day) the id
`order[k mod len(order)]`, where `order` is the can-make ids followed by
the remaining ids in ranked order, so no slot is left unfilled; with no
recipes every slot of the returned plan is null. -/
theorem auto_fill_slot_assignment (store : List MealPlanDoc) (ws : String)
    (pantry : List PantryItem) (recipes : List Recipe) :
    (recipes ≠ [] → ∀ k, k < 21 →
        planSlot (auto_fill_mealplan store ws pantry recipes).2 k
          = (suggestOrder pantry recipes)[k % (suggestOrder pantry recipes).length]?
        ∧ planSlot (auto_fill_mealplan store ws pantry recipes).2 k ≠ none)
    ∧ (recipes = [] → ∀ k, k < 21 →
        planSlot (auto_fill_mealplan store ws pantry recipes).2 k = none) := by
  constructor
  · intro hne k hk
    have hpos : 0 < (suggestOrder pantry recipes).length := by
      rw [suggestOrder_length]
      exact List.length_pos.mpr hne
    have hord : (suggestOrder pantry recipes).isEmpty = false := by
      rcases h : suggestOrder pantry recipes with _ | ⟨a, l⟩
      · rw [h] at hpos; simp at hpos
      · rfl
    have hplan : (auto_fill_mealplan store ws pantry recipes).2
        = fillDays (suggestOrder pantry recipes) := by
      simp [auto_fill_mealplan, hord]
    rw [hplan, planSlot_fillDays _ hpos k hk]
    refine ⟨rfl, ?_⟩
    rw [List.getElem?_eq_getElem (Nat.mod_lt _ hpos)]
    exact Option.some_ne_none _
  · intro hempty k hk
    subst hempty
    have hord : suggestOrder pantry [] = [] := by
      unfold suggestOrder suggest_recipes
      simp [List.mergeSort_nil]
    have hplan : (auto_fill_mealplan store ws pantry []).2 = emptyDays := by
      simp [auto_fill_mealplan, hord]
    rw [hplan]
    revert hk
    revert k
    decide

/-- Witness for the hypotheses of `auto_fill_slot_assignment`: one recipe,
slot 4 (Tuesday lunch) receives it. -/
theorem auto_fill_slot_assignment_witness :
    planSlot (auto_fill_mealplan [] "2024-01-01" [] [⟨"r1", "T", none, []⟩]).2 4
      = (suggestOrder [] [⟨"r1", "T", none, []⟩])[4 %
          (suggestOrder [] [⟨"r1", "T", none, []⟩]).length]?
    ∧ planSlot (auto_fill_mealplan [] "2024-01-01" [] [⟨"r1", "T", none, []⟩]).2 4
      ≠ none := by
  have h := (auto_fill_slot_assignment [] "2024-01-01" [] [⟨"r1", "T", none, []⟩]).1
    (by simp) 4 (by decide)
  exact h

/-- C4: a shopping-list item is emitted for a needed key exactly when the
accumulated needed quantity minus the summed pantry quantity exceeds
1e-4; the item carries the deficit rounded to two decimals (rounding only
at output), name and unit as stored, `purchased = false`; output is
sorted ascending by name; the needed and pantry quantities are plain sums
over occurrences. -/
theorem generate_shopping_list_spec (plan : MealPlanDoc) (store : List Recipe)
    (pantry : List PantryItem) (res : List ShoppingItem)
    (h : generate_shopping_list (some plan) store pantry = .ok res) :
    res.Pairwise (fun a b => strLe a.name b.name = true)
    ∧ res.Perm ((neededEntries store (collectIds plan.days)).filterMap
        (emitEntry (buildHave pantry)))
    ∧ (∀ kv ∈ neededEntries store (collectIds plan.days),
        kv.2.quantity
          = (((foundIngredients store (collectIds plan.days)).filter
                (fun i => keyOf i.name i.unit = kv.1)).map
              (fun i => qtyOrOne i.quantity)).sum)
    ∧ (∀ key : String, haveAmount (buildHave pantry) key
        = ((pantry.filter (fun p => keyOf p.name p.unit = key)).map
            (fun p => p.quantity)).sum) := by
  rcases hb : buildNeeded store (collectIds plan.days) with e | needed
  · rw [generate_shopping_list, hb] at h
    cases h
  · rw [generate_shopping_list, hb] at h
    have hres : res = (emitItems needed (buildHave pantry)).mergeSort itemLe :=
      (Except.ok.injEq _ _).mp h |>.symm
    have hneed : needed = neededEntries store (collectIds plan.days) := by
      have hfold := foldlM_needStep_ok store (collectIds plan.days) [] needed hb
      exact hfold.1
    refine ⟨?_, ?_, ?_, ?_⟩
    · rw [hres]
      exact @List.sorted_mergeSort _ itemLe itemLe_trans itemLe_total
        (emitItems needed (buildHave pantry))
    · rw [hres, ← hneed, emitItems_eq]
      exact List.mergeSort_perm _ _
    · intro kv hkv
      exact mem_neededEntries_quantity _ _ _ hkv
    · intro key
      exact haveAmount_buildHave pantry key

/-- Witness for the hypothesis of `generate_shopping_list_spec`: one
planned recipe needing 2 g of flour against half a gram in the pantry. -/
theorem generate_shopping_list_spec_witness :
    haveAmount (buildHave [⟨"Flour", 1/2, some "g"⟩]) "Flour|g"
      = ((([⟨"Flour", 1/2, some "g"⟩] : List PantryItem).filter
          (fun p => keyOf p.name p.unit = "Flour|g")).map
            (fun p => p.quantity)).sum := by
  have h := (generate_shopping_list_spec
      ⟨"w", [("Mon", [("breakfast", some "aaaaaaaaaaaaaaaaaaaaaaaa")])]⟩
      [⟨"aaaaaaaaaaaaaaaaaaaaaaaa", "T", none, [⟨"Flour", some 2, some "g", []⟩]⟩]
      [⟨"Flour", 1/2, some "g"⟩]
      [⟨"Flour", some "g", 3/2, false⟩]
      (by rfl)).2.2.2 "Flour|g"
  exact h

/-- C6 counterexample: a meal-plan slot holding a value that is not a
valid ObjectId format makes `ObjectId(rid)` raise, aborting the whole
shopping-list computation instead of being treated as null/empty. -/
theorem invalid_slot_id_aborts :
    generate_shopping_list
        (some ⟨"w", [("Mon", [("breakfast", some "not-an-id")])]⟩) [] []
      = .error "InvalidId" := by
  rfl

/-- C6 amended: when every referenced slot value is in valid ObjectId
format, the computation never aborts, and a dangling id (valid format but
no recipe in the store) is skipped silently: the needed-ingredients
aggregation equals the one over only the ids that resolve. -/
theorem dangling_ids_skipped (plan : MealPlanDoc) (store : List Recipe)
    (pantry : List PantryItem)
    (h : ∀ rid ∈ collectIds plan.days, validObjectId rid = true) :
    generate_shopping_list (some plan) store pantry
      = .ok ((emitItems (neededEntries store (collectIds plan.days))
          (buildHave pantry)).mergeSort itemLe)
    ∧ buildNeeded store (collectIds plan.days)
      = buildNeeded store ((collectIds plan.days).filter
          (fun rid => (store.find? (fun r => r.id = rid)).isSome)) := by
  have h2 : ∀ rid ∈ (collectIds plan.days).filter
      (fun rid => (store.find? (fun r => r.id = rid)).isSome),
      validObjectId rid = true :=
    fun rid hr => h rid (List.mem_of_mem_filter hr)
  refine ⟨?_, ?_⟩
  · rw [generate_shopping_list, buildNeeded_eq_ok store _ h]
  · rw [buildNeeded_eq_ok store _ h, buildNeeded_eq_ok store _ h2,
      neededEntries, neededEntries, foundIngredients_filter_found]

/-- Witness for the hypothesis of `dangling_ids_skipped`: a plan
referencing a well-formed but dangling recipe id against an empty store. -/
theorem dangling_ids_skipped_witness :
    buildNeeded []
        (collectIds [("Mon", [("breakfast", some "bbbbbbbbbbbbbbbbbbbbbbbb")])])
      = buildNeeded []
        ((collectIds [("Mon", [("breakfast", some "bbbbbbbbbbbbbbbbbbbbbbbb")])]).filter
          (fun rid => (([] : List Recipe).find? (fun r => r.id = rid)).isSome)) := by
  have h := (dangling_ids_skipped
      ⟨"w", [("Mon", [("breakfast", some "bbbbbbbbbbbbbbbbbbbbbbbb")])]⟩
      [] [] (by decide)).2
  exact h

/-- C7: the generated shopping list depends only on the set of distinct
recipe ids referenced by the plan's slots, not on how often or where a
recipe appears. -/
theorem shopping_list_ignores_repetition (ws1 ws2 : String) (d1 d2 : Days)
    (store : List Recipe) (pantry : List PantryItem)
    (h : ∀ rid ∈ slotIds d1 ++ slotIds d2,
      (rid ∈ slotIds d1 ↔ rid ∈ slotIds d2)) :
    generate_shopping_list (some ⟨ws1, d1⟩) store pantry
      = generate_shopping_list (some ⟨ws2, d2⟩) store pantry := by
  have hmem : ∀ rid, rid ∈ slotIds d1 ↔ rid ∈ slotIds d2 := by
    intro rid
    by_cases h1 : rid ∈ slotIds d1
    · exact h rid (List.mem_append.mpr (Or.inl h1))
    · by_cases h2 : rid ∈ slotIds d2
      · exact h rid (List.mem_append.mpr (Or.inr h2))
      · exact iff_of_false h1 h2
  have hnd1 : (collectIds d1).Nodup :=
    ((List.mergeSort_perm _ strLe).nodup_iff).mpr (List.nodup_dedup _)
  have hnd2 : (collectIds d2).Nodup :=
    ((List.mergeSort_perm _ strLe).nodup_iff).mpr (List.nodup_dedup _)
  have hs1 : (collectIds d1).Pairwise (fun a b => strLe a b = true) :=
    @List.sorted_mergeSort _ strLe strLe_trans strLe_total _
  have hs2 : (collectIds d2).Pairwise (fun a b => strLe a b = true) :=
    @List.sorted_mergeSort _ strLe strLe_trans strLe_total _
  have hp : (collectIds d1).Perm (collectIds d2) := by
    rw [List.perm_ext_iff_of_nodup hnd1 hnd2]
    intro a
    rw [collectIds, (List.mergeSort_perm _ strLe).mem_iff, List.mem_dedup,
      collectIds, (List.mergeSort_perm _ strLe).mem_iff, List.mem_dedup]
    exact hmem a
  haveI : IsAntisymm String (fun a b => strLe a b = true) := ⟨strLe_antisymm⟩
  have hcoll : collectIds d1 = collectIds d2 :=
    List.eq_of_perm_of_sorted hp hs1 hs2
  rw [generate_shopping_list, generate_shopping_list, hcoll]

/-- Witness for the hypothesis of `shopping_list_ignores_repetition`: the
same recipe id in all 21 slots versus in exactly one slot. -/
theorem shopping_list_ignores_repetition_witness :
    generate_shopping_list
        (some ⟨"w1", daysList.map (fun d =>
          (d, slotsList.map (fun s => (s, some "cccccccccccccccccccccccc"))))⟩)
        [] []
      = generate_shopping_list
        (some ⟨"w2", [("Mon", [("breakfast", some "cccccccccccccccccccccccc")])]⟩)
        [] [] := by
  have h := shopping_list_ignores_repetition "w1" "w2"
    (daysList.map (fun d =>
      (d, slotsList.map (fun s => (s, some "cccccccccccccccccccccccc")))))
    [("Mon", [("breakfast", some "cccccccccccccccccccccccc")])]
    [] [] (by decide)
  exact h

/-- C5 counterexample: with no recipes, auto-fill returns early without
persisting, so a pre-existing plan for the week keeps its old slots (here
Monday breakfast stays `some "x"` instead of every slot becoming null). -/
theorem auto_fill_empty_recipes_no_write :
    ((auto_fill_mealplan [⟨"2024-01-01", [("Mon", [("breakfast", some "x")])]⟩]
        "2024-01-01" [] []).1.find?
      (fun doc => doc.week_start = "2024-01-01"))
      = some ⟨"2024-01-01", [("Mon", [("breakfast", some "x")])]⟩ := by
  rfl

/-- C5 amended: when at least one recipe exists, auto-fill upserts the
computed plan under the week_start key, fully overwriting the days of any
pre-existing plan for that week; when no recipes exist, the store is left
unchanged (the all-null plan is returned but not persisted). -/
theorem auto_fill_persistence (store : List MealPlanDoc) (ws : String)
    (pantry : List PantryItem) (recipes : List Recipe) :
    (recipes ≠ [] →
        ((auto_fill_mealplan store ws pantry recipes).1.find?
            (fun doc => doc.week_start = ws))
          = some ⟨ws, (auto_fill_mealplan store ws pantry recipes).2⟩)
    ∧ (recipes = [] →
        (auto_fill_mealplan store ws pantry recipes).1 = store) := by
  constructor
  · intro hne
    have hpos : 0 < (suggestOrder pantry recipes).length := by
      rw [suggestOrder_length]
      exact List.length_pos.mpr hne
    have hord : (suggestOrder pantry recipes).isEmpty = false := by
      rcases hh : suggestOrder pantry recipes with _ | ⟨a, l⟩
      · rw [hh] at hpos; simp at hpos
      · rfl
    have h2 : (auto_fill_mealplan store ws pantry recipes).2
        = fillDays (suggestOrder pantry recipes) := by
      simp [auto_fill_mealplan, hord]
    rw [h2]
    by_cases hex : (store.find? (fun doc => doc.week_start = ws)).isSome = true
    · have h1 : (auto_fill_mealplan store ws pantry recipes).1
          = updateFirst store ws (fillDays (suggestOrder pantry recipes)) := by
        simp [auto_fill_mealplan, hord, hex]
      rw [h1]
      exact find?_updateFirst store ws _ hex
    · have h1 : (auto_fill_mealplan store ws pantry recipes).1
          = store ++ [⟨ws, fillDays (suggestOrder pantry recipes)⟩] := by
        simp [auto_fill_mealplan, hord, hex]
      rw [h1, List.find?_append]
      have hnone : store.find? (fun doc => doc.week_start = ws) = none :=
        Option.not_isSome_iff_eq_none.mp (by simpa using hex)
      rw [hnone]
      simp [List.find?_cons]
  · intro hempty
    subst hempty
    have hord : suggestOrder pantry [] = [] := by
      unfold suggestOrder suggest_recipes
      simp [List.mergeSort_nil]
    simp [auto_fill_mealplan, hord]

/-- Witness for the hypotheses of `auto_fill_persistence`: one recipe,
empty store; the plan gets inserted for the requested week. -/
theorem auto_fill_persistence_witness :
    ((auto_fill_mealplan [] "2024-01-01" [] [⟨"r1", "T", none, []⟩]).1.find?
        (fun doc => doc.week_start = "2024-01-01"))
      = some ⟨"2024-01-01",
          (auto_fill_mealplan [] "2024-01-01" [] [⟨"r1", "T", none, []⟩]).2⟩ := by
  have h := (auto_fill_persistence [] "2024-01-01" [] [⟨"r1", "T", none, []⟩]).1
    (by simp)
  exact h

theorem incFirst_nonneg (store : List PantryItem) (item : PantryItem)
    (hstore : ∀ p ∈ store, 0 ≤ p.quantity) (hitem : 0 ≤ item.quantity) :
    ∀ p ∈ incFirst store item, 0 ≤ p.quantity := by
  induction store with
  | nil => intro p hp; cases hp
  | cons q rest ih =>
    intro p hp
    rw [incFirst] at hp
    by_cases hc : q.name = item.name ∧ q.unit = item.unit
    · rw [if_pos hc] at hp
      rcases List.mem_cons.mp hp with rfl | hp2
      · exact add_nonneg (hstore q (List.mem_cons_self q rest)) hitem
      · exact hstore p (List.mem_cons_of_mem _ hp2)
    · rw [if_neg hc] at hp
      rcases List.mem_cons.mp hp with rfl | hp2
      · exact hstore p (List.mem_cons_self p rest)
      · exact ih (fun x hx => hstore x (List.mem_cons_of_mem _ hx)) p hp2

/-- C9 counterexample: `PantryItem` has no lower bound on `quantity`
(`schemas.py` line 46), so adding an item with a negative quantity leaves
a negative quantity in the store after the merge. -/
theorem add_pantry_negative_quantity :
    add_pantry_item [] ⟨"Milk", -1, none⟩ = [⟨"Milk", -1, none⟩]
    ∧ ¬ (∀ p ∈ add_pantry_item [] ⟨"Milk", -1, none⟩, 0 ≤ p.quantity) := by
  refine ⟨rfl, ?_⟩
  intro hall
  have hm : (⟨"Milk", -1, none⟩ : PantryItem) ∈ add_pantry_item []
      ⟨"Milk", -1, none⟩ := by
    rw [show add_pantry_item [] ⟨"Milk", -1, none⟩ = [⟨"Milk", -1, none⟩] from rfl]
    exact List.mem_cons_self _ _
  have := hall _ hm
  norm_num at this

/-- C9 amended: the pantry add merges by `(name, unit)` and *preserves*
non-negativity: if every stored quantity and the added item's quantity are
non-negative, every quantity after the merge is non-negative (the code
does not itself enforce the bound). -/
theorem add_pantry_item_nonneg (store : List PantryItem) (item : PantryItem)
    (hstore : ∀ p ∈ store, 0 ≤ p.quantity) (hitem : 0 ≤ item.quantity) :
    ∀ p ∈ add_pantry_item store item, 0 ≤ p.quantity := by
  intro p hp
  rcases hfind : store.find? (fun p =>
      decide (p.name = item.name) && decide (p.unit = item.unit)) with _ | q
  · rw [add_pantry_item, hfind] at hp
    rcases List.mem_append.mp hp with h1 | h1
    · exact hstore p h1
    · rcases List.mem_singleton.mp h1 with rfl
      exact hitem
  · rw [add_pantry_item, hfind] at hp
    exact incFirst_nonneg store item hstore hitem p hp

/-- Witness for the hypotheses of `add_pantry_item_nonneg`: merging 2 pc
of apples into a pantry holding 1 pc yields the non-negative merged row. -/
theorem add_pantry_item_nonneg_witness :
    (0 : ℚ) ≤ (⟨"Apple", 3, some "pc"⟩ : PantryItem).quantity := by
  have h := add_pantry_item_nonneg [⟨"Apple", 1, some "pc"⟩]
    ⟨"Apple", 2, some "pc"⟩ (by intro p hp; simp at hp; rw [hp]; norm_num)
    (by norm_num) ⟨"Apple", 3, some "pc"⟩ (by decide)
  exact h

/-- C10: in shopping-list aggregation an ingredient whose quantity is
absent or exactly 0 contributes 1 (not 0) to its name|unit key, and is
indistinguishable from quantity 1 for any accumulated dict state. -/
theorem zero_quantity_contributes_one (st : List (String × NeedEntry))
    (ing : RecipeIngredient)
    (h : ing.quantity = none ∨ ing.quantity = some 0) :
    addIngredient st ing
      = addIngredient st ⟨ing.name, some 1, ing.unit, ing.substitutions⟩
    ∧ amountOf (addIngredient st ing) (keyOf ing.name ing.unit)
      = amountOf st (keyOf ing.name ing.unit) + 1 := by
  have hq : qtyOrOne ing.quantity = 1 := by
    rcases h with h | h <;> simp [h, qtyOrOne]
  constructor
  · rw [addIngredient, addIngredient, hq]
    norm_num [qtyOrOne]
  · rw [addIngredient, hq, amountOf_bumpNeeded_self]

/-- Witness for the hypothesis of `zero_quantity_contributes_one`: an
explicit zero-quantity salt ingredient adds 1 to its key. -/
theorem zero_quantity_contributes_one_witness :
    amountOf (addIngredient [] ⟨"Salt", some 0, none, []⟩) (keyOf "Salt" none)
      = amountOf [] (keyOf "Salt" none) + 1 := by
  have h := (zero_quantity_contributes_one [] ⟨"Salt", some 0, none, []⟩
    (Or.inr rfl)).2
  exact h

end RecipeHub
